import Mathlib

/-!
# amplitude-to-bigquery: the export, projection and load pipeline of `main.go`

A shallow embedding of `main.go`.  The program is one `main` function built from
calls into the Go standard library; the embedding follows its control flow
statement by statement and represents everything outside `main.go` (environment,
clock, HTTP, archive and JSON scanning, the pipe) by the fields of `World`.

Conventions.
* A Go `string` is a Lean `String`, a `json.RawMessage` the text of a JSON value.
* Go `int` and `time.Duration` are 64-bit: values are `Int`, and the one product
  the program computes on them is reduced with `wrapInt64`.
* An instant (`time.Time`) is an `Int`, nanoseconds since the Unix epoch.
* `log.Fatal` ends the process: a run is a list of effects together with
  `some message` when it ended in `log.Fatal` and `none` when it returned.
-/

namespace AmplitudeToBigquery

/-! ## The event record (`type RawEvent struct`, main.go 146-196) -/

/-- Text of a JSON value, as `json.RawMessage` keeps it; `string(m)` is the text itself. -/
abbrev RawMessage := String

/-- The struct `RawEvent`: one field per line of main.go 147-195. -/
structure RawEvent where
  ServerReceivedTime      : String
  App                     : Int
  DeviceCarrier           : String
  Schema                  : Int
  City                    : String
  UserID                  : String
  UUID                    : String
  EventTime               : String
  Platform                : String
  OsVersion               : String
  AmplitudeID             : Int
  ProcessedTime           : String
  UserCreationTime        : String
  VersionName             : String
  IPAddress               : String
  Paying                  : String
  DMA                     : String
  GroupProperties         : RawMessage
  UserProperties          : RawMessage
  ClientUploadTime        : String
  InsertID                : String
  EventType               : String
  Library                 : String
  AmplitudeAttributionIds : String
  DeviceType              : String
  DeviceManufacturer      : String
  StartVersion            : String
  LocationLng             : String
  ServerUploadTime        : String
  EventID                 : Int
  LocationLat             : String
  OSName                  : String
  AmplitudeEventType      : String
  DeviceBrand             : String
  Groups                  : RawMessage
  EventProperties         : RawMessage
  Data                    : RawMessage
  DeviceID                : String
  Language                : String
  DeviceModel             : String
  Country                 : String
  Region                  : String
  IsAttributionEvent      : Bool
  AdID                    : String
  SessionID               : Int
  DeviceFamily            : String
  SampleRate              : String
  IDFA                    : String
  ClientEventTime         : String
  deriving DecidableEq, Repr

/-- The names of the fields of `RawEvent`, in declaration order. -/
inductive Field where
  | ServerReceivedTime
  | App
  | DeviceCarrier
  | Schema
  | City
  | UserID
  | UUID
  | EventTime
  | Platform
  | OsVersion
  | AmplitudeID
  | ProcessedTime
  | UserCreationTime
  | VersionName
  | IPAddress
  | Paying
  | DMA
  | GroupProperties
  | UserProperties
  | ClientUploadTime
  | InsertID
  | EventType
  | Library
  | AmplitudeAttributionIds
  | DeviceType
  | DeviceManufacturer
  | StartVersion
  | LocationLng
  | ServerUploadTime
  | EventID
  | LocationLat
  | OSName
  | AmplitudeEventType
  | DeviceBrand
  | Groups
  | EventProperties
  | Data
  | DeviceID
  | Language
  | DeviceModel
  | Country
  | Region
  | IsAttributionEvent
  | AdID
  | SessionID
  | DeviceFamily
  | SampleRate
  | IDFA
  | ClientEventTime
  deriving DecidableEq, Repr

/-- The json tag of each field. -/
def Field.tag : Field → String
  | .ServerReceivedTime      => "server_received_time"
  | .App                     => "app"
  | .DeviceCarrier           => "device_carrier"
  | .Schema                  => "$schema"
  | .City                    => "city"
  | .UserID                  => "user_id"
  | .UUID                    => "uuid"
  | .EventTime               => "event_time"
  | .Platform                => "platform"
  | .OsVersion               => "os_version"
  | .AmplitudeID             => "amplitude_id"
  | .ProcessedTime           => "processed_time"
  | .UserCreationTime        => "user_creation_time"
  | .VersionName             => "version_name"
  | .IPAddress               => "ip_address"
  | .Paying                  => "paying"
  | .DMA                     => "dma"
  | .GroupProperties         => "group_properties"
  | .UserProperties          => "user_properties"
  | .ClientUploadTime        => "client_upload_time"
  | .InsertID                => "$insert_id"
  | .EventType               => "event_type"
  | .Library                 => "library"
  | .AmplitudeAttributionIds => "amplitude_attribution_ids"
  | .DeviceType              => "device_type"
  | .DeviceManufacturer      => "device_manufacturer"
  | .StartVersion            => "start_version"
  | .LocationLng             => "location_lng"
  | .ServerUploadTime        => "server_upload_time"
  | .EventID                 => "event_id"
  | .LocationLat             => "location_lat"
  | .OSName                  => "os_name"
  | .AmplitudeEventType      => "amplitude_event_type"
  | .DeviceBrand             => "device_brand"
  | .Groups                  => "groups"
  | .EventProperties         => "event_properties"
  | .Data                    => "data"
  | .DeviceID                => "device_id"
  | .Language                => "language"
  | .DeviceModel             => "device_model"
  | .Country                 => "country"
  | .Region                  => "region"
  | .IsAttributionEvent      => "is_attribution_event"
  | .AdID                    => "adid"
  | .SessionID               => "session_id"
  | .DeviceFamily            => "device_family"
  | .SampleRate              => "sample_rate"
  | .IDFA                    => "idfa"
  | .ClientEventTime         => "client_event_time"

/-- All fields, in declaration order. -/
def allFields : List Field :=
  [.ServerReceivedTime, .App, .DeviceCarrier, .Schema, .City, .UserID, .UUID, .EventTime, .Platform, .OsVersion, .AmplitudeID, .ProcessedTime, .UserCreationTime, .VersionName, .IPAddress, .Paying, .DMA, .GroupProperties, .UserProperties, .ClientUploadTime, .InsertID, .EventType, .Library, .AmplitudeAttributionIds, .DeviceType, .DeviceManufacturer, .StartVersion, .LocationLng, .ServerUploadTime, .EventID, .LocationLat, .OSName, .AmplitudeEventType, .DeviceBrand, .Groups, .EventProperties, .Data, .DeviceID, .Language, .DeviceModel, .Country, .Region, .IsAttributionEvent, .AdID, .SessionID, .DeviceFamily, .SampleRate, .IDFA, .ClientEventTime]

/-- The zero value that `var event RawEvent` declares (main.go 108). -/
def RawEvent.zero : RawEvent where
  ServerReceivedTime      := ""
  App                     := 0
  DeviceCarrier           := ""
  Schema                  := 0
  City                    := ""
  UserID                  := ""
  UUID                    := ""
  EventTime               := ""
  Platform                := ""
  OsVersion               := ""
  AmplitudeID             := 0
  ProcessedTime           := ""
  UserCreationTime        := ""
  VersionName             := ""
  IPAddress               := ""
  Paying                  := ""
  DMA                     := ""
  GroupProperties         := ""
  UserProperties          := ""
  ClientUploadTime        := ""
  InsertID                := ""
  EventType               := ""
  Library                 := ""
  AmplitudeAttributionIds := ""
  DeviceType              := ""
  DeviceManufacturer      := ""
  StartVersion            := ""
  LocationLng             := ""
  ServerUploadTime        := ""
  EventID                 := 0
  LocationLat             := ""
  OSName                  := ""
  AmplitudeEventType      := ""
  DeviceBrand             := ""
  Groups                  := ""
  EventProperties         := ""
  Data                    := ""
  DeviceID                := ""
  Language                := ""
  DeviceModel             := ""
  Country                 := ""
  Region                  := ""
  IsAttributionEvent      := false
  AdID                    := ""
  SessionID               := 0
  DeviceFamily            := ""
  SampleRate              := ""
  IDFA                    := ""
  ClientEventTime         := ""

/-! ## Decoding (`encoding/json`, as `main` uses it at main.go 104-114)

The scanner of `encoding/json` is not modelled: a shard is given as the sequence of
top-level values the scanner finds in it.  What is modelled is how `Decode` stores
one value into a `RawEvent` under `DisallowUnknownFields`: key lookup (an exact
match of the tag, else a match after case folding), and the store of a value into
a field of each of the four field types.  The first error is the one returned;
the caller discards the record on any error, so decoding stops at it here. -/

deriving instance DecidableEq for Except

/-- The shape of a JSON value as far as storing it into a field depends on it. -/
inductive JSONKind where
  | null
  | bool (b : Bool)
  | number (literal : String)
  | string (s : String)
  | array
  | object
  deriving DecidableEq, Repr

/-- One member of a JSON object: the unquoted key, the value and the value's text. -/
structure Member where
  key : String
  kind : JSONKind
  raw : String
  deriving DecidableEq, Repr

/-- A top-level value of a shard. -/
inductive JSONDoc where
  | object (members : List Member)
  | null
  | other
  deriving DecidableEq, Repr

/-- Value of a run of decimal digits, most significant first. -/
def digitsValue : List Char → Nat → Option Nat
  | [], acc => some acc
  | c :: cs, acc =>
    if c.isDigit then digitsValue cs (acc * 10 + (c.toNat - 48)) else none

/-- Go `strconv.ParseInt(s, 10, 64)`: an optional sign, then digits, in the int64 range. -/
def parseInt64 (s : String) : Option Int :=
  let signed : Option Int :=
    match s.data with
    | [] => none
    | '-' :: [] => none
    | '+' :: [] => none
    | '-' :: ds => (digitsValue ds 0).map (fun n => -(n : Int))
    | '+' :: ds => (digitsValue ds 0).map (fun n => (n : Int))
    | ds => (digitsValue ds 0).map (fun n => (n : Int))
  match signed with
  | some n => if -9223372036854775808 ≤ n ∧ n ≤ 9223372036854775807 then some n else none
  | none => none

/-- Store into a `string` field: a JSON string is stored, `null` leaves the field, else an error. -/
def storeString (v : JSONKind) (set : String → RawEvent) (e : RawEvent) : Except String RawEvent :=
  match v with
  | .string s => .ok (set s)
  | .null => .ok e
  | _ => .error "json: cannot unmarshal value into Go struct field of type string"

/-- Store into an `int` field: an integer literal in range is stored, `null` leaves the field. -/
def storeInt (v : JSONKind) (set : Int → RawEvent) (e : RawEvent) : Except String RawEvent :=
  match v with
  | .number literal =>
    match parseInt64 literal with
    | some n => .ok (set n)
    | none => .error "json: cannot unmarshal number into Go struct field of type int"
  | .null => .ok e
  | _ => .error "json: cannot unmarshal value into Go struct field of type int"

/-- Store into a `bool` field. -/
def storeBool (v : JSONKind) (set : Bool → RawEvent) (e : RawEvent) : Except String RawEvent :=
  match v with
  | .bool b => .ok (set b)
  | .null => .ok e
  | _ => .error "json: cannot unmarshal value into Go struct field of type bool"

/-- Store into a `json.RawMessage` field: `UnmarshalJSON` copies the text of any value. -/
def storeRaw (raw : String) (set : RawMessage → RawEvent) : Except String RawEvent :=
  .ok (set raw)

/-- Store one value into the field `f`, by the field's declared type. -/
def assign (f : Field) (v : JSONKind) (raw : String) (e : RawEvent) : Except String RawEvent :=
  match f with
  | .ServerReceivedTime      => storeString v (fun x => { e with ServerReceivedTime := x }) e
  | .App                     => storeInt v (fun x => { e with App := x }) e
  | .DeviceCarrier           => storeString v (fun x => { e with DeviceCarrier := x }) e
  | .Schema                  => storeInt v (fun x => { e with Schema := x }) e
  | .City                    => storeString v (fun x => { e with City := x }) e
  | .UserID                  => storeString v (fun x => { e with UserID := x }) e
  | .UUID                    => storeString v (fun x => { e with UUID := x }) e
  | .EventTime               => storeString v (fun x => { e with EventTime := x }) e
  | .Platform                => storeString v (fun x => { e with Platform := x }) e
  | .OsVersion               => storeString v (fun x => { e with OsVersion := x }) e
  | .AmplitudeID             => storeInt v (fun x => { e with AmplitudeID := x }) e
  | .ProcessedTime           => storeString v (fun x => { e with ProcessedTime := x }) e
  | .UserCreationTime        => storeString v (fun x => { e with UserCreationTime := x }) e
  | .VersionName             => storeString v (fun x => { e with VersionName := x }) e
  | .IPAddress               => storeString v (fun x => { e with IPAddress := x }) e
  | .Paying                  => storeString v (fun x => { e with Paying := x }) e
  | .DMA                     => storeString v (fun x => { e with DMA := x }) e
  | .GroupProperties         => storeRaw raw (fun x => { e with GroupProperties := x })
  | .UserProperties          => storeRaw raw (fun x => { e with UserProperties := x })
  | .ClientUploadTime        => storeString v (fun x => { e with ClientUploadTime := x }) e
  | .InsertID                => storeString v (fun x => { e with InsertID := x }) e
  | .EventType               => storeString v (fun x => { e with EventType := x }) e
  | .Library                 => storeString v (fun x => { e with Library := x }) e
  | .AmplitudeAttributionIds => storeString v (fun x => { e with AmplitudeAttributionIds := x }) e
  | .DeviceType              => storeString v (fun x => { e with DeviceType := x }) e
  | .DeviceManufacturer      => storeString v (fun x => { e with DeviceManufacturer := x }) e
  | .StartVersion            => storeString v (fun x => { e with StartVersion := x }) e
  | .LocationLng             => storeString v (fun x => { e with LocationLng := x }) e
  | .ServerUploadTime        => storeString v (fun x => { e with ServerUploadTime := x }) e
  | .EventID                 => storeInt v (fun x => { e with EventID := x }) e
  | .LocationLat             => storeString v (fun x => { e with LocationLat := x }) e
  | .OSName                  => storeString v (fun x => { e with OSName := x }) e
  | .AmplitudeEventType      => storeString v (fun x => { e with AmplitudeEventType := x }) e
  | .DeviceBrand             => storeString v (fun x => { e with DeviceBrand := x }) e
  | .Groups                  => storeRaw raw (fun x => { e with Groups := x })
  | .EventProperties         => storeRaw raw (fun x => { e with EventProperties := x })
  | .Data                    => storeRaw raw (fun x => { e with Data := x })
  | .DeviceID                => storeString v (fun x => { e with DeviceID := x }) e
  | .Language                => storeString v (fun x => { e with Language := x }) e
  | .DeviceModel             => storeString v (fun x => { e with DeviceModel := x }) e
  | .Country                 => storeString v (fun x => { e with Country := x }) e
  | .Region                  => storeString v (fun x => { e with Region := x }) e
  | .IsAttributionEvent      => storeBool v (fun x => { e with IsAttributionEvent := x }) e
  | .AdID                    => storeString v (fun x => { e with AdID := x }) e
  | .SessionID               => storeInt v (fun x => { e with SessionID := x }) e
  | .DeviceFamily            => storeString v (fun x => { e with DeviceFamily := x }) e
  | .SampleRate              => storeString v (fun x => { e with SampleRate := x }) e
  | .IDFA                    => storeString v (fun x => { e with IDFA := x }) e
  | .ClientEventTime         => storeString v (fun x => { e with ClientEventTime := x }) e

/-- Case folding of one character of a key: ASCII lower case to upper case; for a
character outside ASCII the table `foldRune` (the least member of the orbit of
`unicode.SimpleFold`). -/
def foldChar (foldRune : Char → Char) (c : Char) : Char :=
  if c.toNat < 128 then
    if 'a' ≤ c ∧ c ≤ 'z' then Char.ofNat (c.toNat - 32) else c
  else foldRune c

/-- The folded form of a key (`foldName`). -/
def foldName (foldRune : Char → Char) (s : String) : List Char :=
  s.data.map (foldChar foldRune)

/-- The struct field a key selects: the field whose tag is the key, else the first
field whose tag equals the key after folding. -/
def findField (foldRune : Char → Char) (key : String) : Option Field :=
  match allFields.find? (fun f => decide (f.tag = key)) with
  | some f => some f
  | none => allFields.find? (fun f => decide (foldName foldRune f.tag = foldName foldRune key))

/-- Members of an object stored in order into `e`; a key that selects no field is
an error (`DisallowUnknownFields`). -/
def decodeObject (foldRune : Char → Char) : List Member → RawEvent → Except String RawEvent
  | [], e => .ok e
  | m :: ms, e =>
    match findField foldRune m.key with
    | none => .error ("json: unknown field " ++ m.key)
    | some f =>
      match assign f m.kind m.raw e with
      | .error err => .error err
      | .ok e1 => decodeObject foldRune ms e1

/-- The call `dec.Decode(&event)` on one scanned value: an object is stored member
by member, `null` leaves the struct as it is, any other value is a type error. -/
def Decode (foldRune : Char → Char) (v : JSONDoc) (event : RawEvent) : Except String RawEvent :=
  match v with
  | .object members => decodeObject foldRune members event
  | .null => .ok event
  | .other => .error "json: cannot unmarshal value into Go value of type main.RawEvent"

/-! ## Clock arithmetic (main.go 30-38 and the loop header at 59) -/

/-- Reduction of an integer to the signed 64-bit range, as Go arithmetic on `int64` wraps. -/
def wrapInt64 (x : Int) : Int :=
  (x + 9223372036854775808) % 18446744073709551616 - 9223372036854775808

/-- The constant `time.Hour`, in nanoseconds. -/
def hour : Int := 3600000000000

/-- The step of the day loop, `24 * time.Hour`. -/
def day : Int := 24 * hour

/-- The duration `-time.Hour * 24 * time.Duration(days)` of main.go 37. -/
def startOffset (days : Int) : Int :=
  wrapInt64 (-hour * 24 * days)

/-- Go `strconv.Atoi` on a 64-bit platform. -/
def atoi (s : String) : Option Int := parseInt64 s

/-- The values `current` takes in `for current := start; !current.After(stop);
current = current.Add(24 * time.Hour)`, with a bound on the number of iterations. -/
def visitedFuel : Nat → Int → Int → List Int
  | 0, _, _ => []
  | fuel + 1, current, stop =>
    if current ≤ stop then current :: visitedFuel fuel (current + day) stop else []

/-- The values `current` takes in the day loop.  The bound handed to `visitedFuel`
is never reached (`visited_eq` below is the loop's own unfolding). -/
def visited (start stop : Int) : List Int :=
  visitedFuel ((stop - start).toNat + 1) start stop

/-! ## The world outside `main.go` -/

/-- Payload bytes of an HTTP response. -/
abbrev Bytes := List UInt8

/-- What `http.DefaultClient.Do` returns when it returns a response. -/
structure Response where
  StatusCode : Nat
  Status : String
  ContentLength : Int
  body : Except String Bytes

/-- One entry of the archive (`zip.File`) as the program sees it: its name, the
error of `f.Open()` if any, the error of `gzip.NewReader` if any, the top-level JSON
values the decoder scans in the decompressed stream, and how the stream ends
(`none` for `io.EOF`, else the error `Decode` returns there). -/
structure ZipFile where
  Name : String
  openErr : Option String
  gzipErr : Option String
  docs : List JSONDoc
  ending : Option String
  deriving DecidableEq

/-- Everything a run depends on that is not in `main.go`. -/
structure World where
  /-- Result of `os.Getenv`; the empty string for an unset variable. -/
  env : String → String
  /-- Error of `bigquery.NewClient` for a project, if any. -/
  newClientErr : String → Option String
  /-- The reading of `time.Now()` at main.go 37. -/
  now1 : Int
  /-- The reading of `time.Now()` at main.go 38. -/
  now2 : Int
  /-- Offset of local time from UTC in effect at an instant, in nanoseconds. -/
  utcOffset : Int → Int
  /-- Error of `table.Create`, if any. -/
  createErr : Option String
  /-- Result of the export request for a calendar date. -/
  httpDo : Int → Except String Response
  /-- The part of `zip.NewReader` after its check of the size: the entries found in
  the payload read as an archive of the given size. -/
  zipInit : Bytes → Int → Except String (List ZipFile)
  /-- Error of `enc.Write` for the row written after `n` earlier rows, if any. -/
  pipeWrite : Nat → Option String
  /-- Case-folding table for characters outside ASCII. -/
  foldRune : Char → Char

/-- The calendar date (days since the epoch, local time) that `current.Format`
prints for an instant. -/
def dateOf (utcOffset : Int → Int) (t : Int) : Int :=
  (t + utcOffset t) / day

/-- What the program does to the outside, in the order it does it. -/
inductive Effect where
  | logDeleting
  | deleteTable
  | logCreating
  | createTable
  | logDownloading (date : Int)
  | request (date : Int)
  | logExportSize (mib : Int)
  | logUploading (name : String)
  | writeRow (row : List String)
  | flush
  | closePipe
  deriving DecidableEq, Repr

/-- A run: the effects so far, and the message of `log.Fatal` if the run ended there. -/
abbrev Run := List Effect × Option String

/-- The rows written, in order. -/
def rowsOf : List Effect → List (List String)
  | [] => []
  | .writeRow row :: es => row :: rowsOf es
  | _ :: es => rowsOf es

/-- The actions on the output stream, in order: row writes, flushes and closes. -/
def streamActions : List Effect → List Effect
  | [] => []
  | .writeRow row :: es => .writeRow row :: streamActions es
  | .flush :: es => .flush :: streamActions es
  | .closePipe :: es => .closePipe :: streamActions es
  | _ :: es => streamActions es

/-- The dates requested from the export API, in order. -/
def requestsOf : List Effect → List Int
  | [] => []
  | .request d :: es => d :: requestsOf es
  | _ :: es => requestsOf es

/-! ## The program (`main`, main.go 22-144) -/

/-- The function `getenv` (main.go 198-204): the value, or the message of `log.Fatalf`. -/
def getenv (w : World) (name : String) : Except String String :=
  let v := w.env name
  if v = "" then .error ("Error: " ++ name ++ " not set.") else .ok v

/-- The row handed to `enc.Write` (main.go 120-126). -/
def projectRow (event : RawEvent) : List String :=
  [event.EventTime, event.EventType, event.UserID, event.EventProperties, event.UserProperties]

/-- The statements after a successful decode (main.go 116-128): nothing for an
empty `UserID`, else one `enc.Write`; `n` rows were written before. -/
def emitRow (w : World) (n : Nat) (event : RawEvent) : Run :=
  if event.UserID = "" then ([], none)
  else
    match w.pipeWrite n with
    | some err => ([], some err)
    | none => ([Effect.writeRow (projectRow event)], none)

/-- The decode loop over one shard (main.go 107-129); `n` rows were written before.
Each iteration declares a fresh `event`, so `Decode` starts from the zero value. -/
def recordLoop (w : World) : Nat → List JSONDoc → Option String → Run
  | _, [], ending => ([], ending)
  | n, v :: rest, ending =>
    match Decode w.foldRune v RawEvent.zero with
    | .error err => ([], some err)
    | .ok event =>
      let r := emitRow w n event
      match r.2 with
      | some err => (r.1, some err)
      | none =>
        let r2 := recordLoop w (n + (rowsOf r.1).length) rest ending
        (r.1 ++ r2.1, r2.2)

/-- The loop over the entries of one archive (main.go 91-132). -/
def fileLoop (w : World) : Nat → List ZipFile → Run
  | _, [] => ([], none)
  | n, f :: fs =>
    match f.openErr with
    | some err => ([Effect.logUploading f.Name], some err)
    | none =>
      match f.gzipErr with
      | some err => ([Effect.logUploading f.Name], some err)
      | none =>
        let r := recordLoop w n f.docs f.ending
        match r.2 with
        | some err => (Effect.logUploading f.Name :: r.1, some err)
        | none =>
          let r2 := fileLoop w (n + (rowsOf r.1).length) fs
          (Effect.logUploading f.Name :: r.1 ++ r2.1, r2.2)

/-- The call `zip.NewReader(bytes.NewReader(data), size)`: a negative size is refused. -/
def zipNewReader (w : World) (data : Bytes) (size : Int) : Except String (List ZipFile) :=
  if size < 0 then .error "zip: size cannot be negative" else w.zipInit data size

/-- The body of the day loop for one value of `current` (main.go 60-132). -/
def dayBody (w : World) (n : Nat) (current : Int) : Run :=
  let date := dateOf w.utcOffset current
  match getenv w "AMPLITUDE_API_KEY" with
  | .error err => ([Effect.logDownloading date], some err)
  | .ok _ =>
    match getenv w "AMPLITUDE_SECRET_KEY" with
    | .error err => ([Effect.logDownloading date], some err)
    | .ok _ =>
      match w.httpDo date with
      | .error err => ([Effect.logDownloading date, Effect.request date], some err)
      | .ok resp =>
        if resp.StatusCode ≠ 200 then
          ([Effect.logDownloading date, Effect.request date], some resp.Status)
        else
          let pre := [Effect.logDownloading date, Effect.request date,
            Effect.logExportSize ((resp.ContentLength.tdiv 1024).tdiv 1024)]
          match resp.body with
          | .error err => (pre, some err)
          | .ok data =>
            match zipNewReader w data resp.ContentLength with
            | .error err => (pre, some err)
            | .ok files =>
              let r := fileLoop w n files
              (pre ++ r.1, r.2)

/-- The day loop over the values of `current` (main.go 59-133). -/
def daysLoop (w : World) : Nat → List Int → Run
  | _, [] => ([], none)
  | n, current :: rest =>
    let r := dayBody w n current
    match r.2 with
    | some err => (r.1, some err)
    | none =>
      let r2 := daysLoop w (n + (rowsOf r.1).length) rest
      (r.1 ++ r2.1, r2.2)

/-- The producer goroutine (main.go 58-137): the day loop, then `enc.Flush()` and
`pw.Close()`. -/
def producer (w : World) (start stop : Int) : Run :=
  let r := daysLoop w 0 (visited start stop)
  match r.2 with
  | some err => (r.1, some err)
  | none => (r.1 ++ [Effect.flush, Effect.closePipe], none)

/-- The day count: 40, or the value of `DAYS` (main.go 30-36). -/
def daysSetting (w : World) : Except String Int :=
  let v := w.env "DAYS"
  if v = "" then .ok 40
  else
    match atoi v with
    | some n => .ok n
    | none => .error ("strconv.Atoi: parsing " ++ v ++ ": invalid syntax")

/-- The instant `start` of main.go 37. -/
def startOf (w : World) (days : Int) : Int := w.now1 + startOffset days

/-- The function `main` up to the end of the producer goroutine.  The load job that
the main goroutine runs meanwhile (main.go 139-143) reads the pipe and is not part
of the model. -/
def main (w : World) : Run :=
  match getenv w "BIGQUERY_PROJECT" with
  | .error err => ([], some err)
  | .ok project =>
    match w.newClientErr project with
    | some err => ([], some err)
    | none =>
      match getenv w "BIGQUERY_DATASET" with
      | .error err => ([], some err)
      | .ok _ =>
        match getenv w "BIGQUERY_TABLE" with
        | .error err => ([], some err)
        | .ok _ =>
          match daysSetting w with
          | .error err => ([], some err)
          | .ok days =>
            let pre := [Effect.logDeleting, Effect.deleteTable, Effect.logCreating, Effect.createTable]
            match w.createErr with
            | some err => (pre, some err)
            | none =>
              let r := producer w (startOf w days) w.now2
              (pre ++ r.1, r.2)

/-! ## The tabular encoder (`encoding/csv`, as `csv.NewWriter(pw)` sets it up)

The writer of main.go 57 has the default delimiter `,` and `UseCRLF = false`.
`Writer.Write` below follows the library's `Write` for that configuration.  The
parser is the grammar of RFC 4180, also accepting a bare line feed as the record
terminator, which is what the writer produces. -/

/-- Go `unicode.IsSpace`. -/
def unicodeIsSpace (c : Char) : Bool :=
  let n := c.toNat
  (9 ≤ n ∧ n ≤ 13) ∨ n = 32 ∨ n = 133 ∨ n = 160 ∨ n = 5760 ∨ (8192 ≤ n ∧ n ≤ 8202) ∨
    n = 8232 ∨ n = 8233 ∨ n = 8239 ∨ n = 8287 ∨ n = 12288

/-- The characters that force a field into quotes. -/
def isSpecial (c : Char) : Bool :=
  c = ',' ∨ c = '"' ∨ c = '\r' ∨ c = '\n'

/-- The method `fieldNeedsQuotes` of the writer. -/
def Writer.fieldNeedsQuotes (field : String) : Bool :=
  if field = "" then false
  else if field = "\\." then true
  else if field.data.any isSpecial then true
  else
    match field.data with
    | c :: _ => unicodeIsSpace c
    | [] => false

/-- The inside of a quoted field: a quote is written twice, a carriage return and a
line feed are written as they are, every other character is copied. -/
def Writer.writeQuoted : List Char → List Char
  | [] => []
  | c :: cs =>
    if c = '"' then '"' :: '"' :: Writer.writeQuoted cs
    else if c = '\r' then '\r' :: Writer.writeQuoted cs
    else if c = '\n' then '\n' :: Writer.writeQuoted cs
    else c :: Writer.writeQuoted cs

/-- One field as written. -/
def Writer.writeField (field : String) : List Char :=
  if Writer.fieldNeedsQuotes field then '"' :: Writer.writeQuoted field.data ++ ['"']
  else field.data

/-- The fields of a record, a delimiter before each but the first. -/
def Writer.writeFields : List String → List Char
  | [] => []
  | [field] => Writer.writeField field
  | field :: rest => Writer.writeField field ++ ',' :: Writer.writeFields rest

/-- The text `enc.Write(record)` appends to the stream. -/
def Writer.Write (record : List String) : String :=
  String.mk (Writer.writeFields record ++ ['\n'])

/-- Where an RFC 4180 parser stands in its input. -/
inductive ParseState where
  | recordStart
  | fieldStart
  | unquoted
  | quoted
  | quoteSeen
  | crSeen
  deriving DecidableEq, Repr

/-- An RFC 4180 parser: `field` and `record` are the field and the record being
read, `records` the records read so far. -/
def parseCSV : ParseState → List Char → List String → List (List String) → List Char →
    Option (List (List String))
  | st, field, record, records, [] =>
    match st with
    | .recordStart => some records
    | .fieldStart => some (records ++ [record ++ [String.mk field]])
    | .unquoted => some (records ++ [record ++ [String.mk field]])
    | .quoteSeen => some (records ++ [record ++ [String.mk field]])
    | .quoted => none
    | .crSeen => none
  | st, field, record, records, c :: cs =>
    match st with
    | .recordStart | .fieldStart =>
      if c = '"' then parseCSV .quoted [] record records cs
      else if c = ',' then parseCSV .fieldStart [] (record ++ [""]) records cs
      else if c = '\n' then parseCSV .recordStart [] [] (records ++ [record ++ [""]]) cs
      else if c = '\r' then parseCSV .crSeen [] record records cs
      else parseCSV .unquoted [c] record records cs
    | .unquoted =>
      if c = '"' then none
      else if c = ',' then parseCSV .fieldStart [] (record ++ [String.mk field]) records cs
      else if c = '\n' then
        parseCSV .recordStart [] [] (records ++ [record ++ [String.mk field]]) cs
      else if c = '\r' then parseCSV .crSeen field record records cs
      else parseCSV .unquoted (field ++ [c]) record records cs
    | .quoted =>
      if c = '"' then parseCSV .quoteSeen field record records cs
      else parseCSV .quoted (field ++ [c]) record records cs
    | .quoteSeen =>
      if c = '"' then parseCSV .quoted (field ++ ['"']) record records cs
      else if c = ',' then parseCSV .fieldStart [] (record ++ [String.mk field]) records cs
      else if c = '\n' then
        parseCSV .recordStart [] [] (records ++ [record ++ [String.mk field]]) cs
      else if c = '\r' then parseCSV .crSeen field record records cs
      else none
    | .crSeen =>
      if c = '\n' then
        parseCSV .recordStart [] [] (records ++ [record ++ [String.mk field]]) cs
      else none

/-- The records of a text, or `none` when the text is not well formed. -/
def csvParse (text : String) : Option (List (List String)) :=
  parseCSV .recordStart [] [] [] text.data

/-! ## What the specification says a run writes -/

/-- The rows a single JSON value gives when it is decoded on its own. -/
def rowsOfDoc (foldRune : Char → Char) (v : JSONDoc) : List (List String) :=
  match Decode foldRune v RawEvent.zero with
  | .ok event => if event.UserID = "" then [] else [projectRow event]
  | .error _ => []

/-- The rows of one shard: those of its records, in record order. -/
def shardRows (w : World) : List JSONDoc → List (List String)
  | [] => []
  | v :: rest => rowsOfDoc w.foldRune v ++ shardRows w rest

/-- The rows of one archive: those of its shards, in entry order. -/
def archiveRows (w : World) : List ZipFile → List (List String)
  | [] => []
  | f :: fs => shardRows w f.docs ++ archiveRows w fs

/-- The entries of the archive fetched for the instant `current`. -/
def archiveOf (w : World) (current : Int) : List ZipFile :=
  match w.httpDo (dateOf w.utcOffset current) with
  | .error _ => []
  | .ok resp =>
    match resp.body with
    | .error _ => []
    | .ok data =>
      match zipNewReader w data resp.ContentLength with
      | .error _ => []
      | .ok files => files

/-- The rows of a list of days: those of each day's archive, in day order. -/
def daysRows (w : World) : List Int → List (List String)
  | [] => []
  | current :: rest => archiveRows w (archiveOf w current) ++ daysRows w rest

/-- The rows the specification expects of a run over the range `start` to `stop`. -/
def expectedRows (w : World) (start stop : Int) : List (List String) :=
  daysRows w (visited start stop)

/-- Whether a JSON value decodes to a record with an empty `UserID`. -/
def emptyUserID (foldRune : Char → Char) (v : JSONDoc) : Bool :=
  match Decode foldRune v RawEvent.zero with
  | .ok event => decide (event.UserID = "")
  | .error _ => false

/-- The scenario of two fetched days, each archive holding one shard of three
records of which one has an empty `UserID`. -/
def twoDayScenario (w : World) (start stop : Int) : Prop :=
  (visited start stop).length = 2 ∧
  ∀ current ∈ visited start stop, ∃ f : ZipFile, archiveOf w current = [f] ∧
    f.docs.length = 3 ∧ (f.docs.filter (emptyUserID w.foldRune)).length = 1

/-- Every value of every shard of `fs` decodes. -/
def allDecode (w : World) (fs : List ZipFile) : Prop :=
  ∀ f ∈ fs, ∀ v ∈ f.docs, ∃ event, Decode w.foldRune v RawEvent.zero = .ok event

/-- What the parser does at the delimiter or line feed that ends a field. -/
def afterField (field : String) (record : List String) (records : List (List String))
    (c : Char) (tail : List Char) : Option (List (List String)) :=
  if c = ',' then parseCSV .fieldStart [] (record ++ [field]) records tail
  else parseCSV .recordStart [] [] (records ++ [record ++ [field]]) tail

/-! ## Concrete worlds -/

/-- The three records of the sample shard; the second has no `user_id`. -/
def sampleDocs : List JSONDoc :=
  [ .object [⟨"user_id", .string "u1", "\"u1\""⟩, ⟨"event_time", .string "t1", "\"t1\""⟩,
      ⟨"event_type", .string "open", "\"open\""⟩, ⟨"event_properties", .object, "\x7b\"a\":1\x7d"⟩],
    .object [⟨"event_time", .string "t2", "\"t2\""⟩, ⟨"event_type", .string "ping", "\"ping\""⟩],
    .object [⟨"event_type", .string "close", "\"close\""⟩, ⟨"user_id", .string "u2", "\"u2\""⟩,
      ⟨"app", .number "7", "7"⟩] ]

/-- A world in which every setting is present, `DAYS` is 1, the clock is read twice
within the same second, and each day's archive is one shard holding `sampleDocs`. -/
def sampleWorld : World where
  env := fun name => if name = "DAYS" then "1" else "set"
  newClientErr := fun _ => none
  now1 := 1700000000000000000
  now2 := 1700000000000000005
  utcOffset := fun _ => 0
  createErr := none
  httpDo := fun _ => .ok ⟨200, "200 OK", 3, .ok [80, 75, 5]⟩
  zipInit := fun _ _ => .ok [⟨"shard_0.json.gz", none, none, sampleDocs, none⟩]
  pipeWrite := fun _ => none
  foldRune := id

/-- A world whose clock is read just before and just after midnight UTC, with `DAYS` 0. -/
def midnightWorld : World :=
  { sampleWorld with
    env := fun name => if name = "DAYS" then "0" else "set"
    now1 := 1700006399999999999
    now2 := 1700006400000000001 }

/-- A world in which `DAYS` is 106752, one more than the largest day count whose
product with 24 hours fits a 64-bit count of nanoseconds. -/
def overflowWorld : World :=
  { sampleWorld with env := fun name => if name = "DAYS" then "106752" else "set" }

/-- The sample world with the response declared of unknown length (`ContentLength`
is -1, as for a chunked response); payload and archive are those of `sampleWorld`. -/
def chunkedWorld : World :=
  { sampleWorld with httpDo := fun _ => .ok ⟨200, "200 OK", -1, .ok [80, 75, 5]⟩ }

/-- The sample world with `AMPLITUDE_API_KEY` unset. -/
def noKeyWorld : World :=
  { sampleWorld with
    env := fun name =>
      if name = "AMPLITUDE_API_KEY" then "" else if name = "DAYS" then "1" else "set" }

/-- The sample world with `AMPLITUDE_API_KEY` unset and `DAYS` set to -1. -/
def noKeyNoDaysWorld : World :=
  { sampleWorld with
    env := fun name =>
      if name = "AMPLITUDE_API_KEY" then "" else if name = "DAYS" then "-1" else "set" }

/-! ## Lemmas on traces -/

theorem rowsOf_append (a b : List Effect) : rowsOf (a ++ b) = rowsOf a ++ rowsOf b := by
  induction a with
  | nil => rfl
  | cons e es ih => cases e <;> simp [rowsOf, ih]

theorem streamActions_append (a b : List Effect) :
    streamActions (a ++ b) = streamActions a ++ streamActions b := by
  induction a with
  | nil => rfl
  | cons e es ih => cases e <;> simp [streamActions, ih]

theorem requestsOf_append (a b : List Effect) :
    requestsOf (a ++ b) = requestsOf a ++ requestsOf b := by
  induction a with
  | nil => rfl
  | cons e es ih => cases e <;> simp [requestsOf, ih]

/-! ## The record loop -/

theorem emitRow_rows (w : World) (n : Nat) (event : RawEvent)
    (h : (emitRow w n event).2 = none) :
    rowsOf (emitRow w n event).1 = if event.UserID = "" then [] else [projectRow event] := by
  unfold emitRow at h ⊢
  by_cases hu : event.UserID = ""
  · simp [hu, rowsOf]
  · simp only [hu, if_false] at h ⊢
    cases hp : w.pipeWrite n with
    | some err => simp [hp] at h
    | none => simp [rowsOf]

theorem emitRow_stream (w : World) (n : Nat) (event : RawEvent) :
    streamActions (emitRow w n event).1 = (rowsOf (emitRow w n event).1).map Effect.writeRow ∧
    requestsOf (emitRow w n event).1 = [] := by
  unfold emitRow
  by_cases hu : event.UserID = ""
  · simp [hu, rowsOf, streamActions, requestsOf]
  · simp only [hu, if_false]
    cases hp : w.pipeWrite n <;> simp [rowsOf, streamActions, requestsOf]

theorem recordLoop_rows (w : World) (docs : List JSONDoc) (ending : Option String) :
    ∀ n : Nat, (recordLoop w n docs ending).2 = none →
      rowsOf (recordLoop w n docs ending).1 = shardRows w docs ∧
      ∀ v ∈ docs, ∃ event, Decode w.foldRune v RawEvent.zero = .ok event := by
  induction docs with
  | nil => intro n _; simp [recordLoop, rowsOf, shardRows]
  | cons v rest ih =>
    intro n h
    unfold recordLoop at h ⊢
    cases hd : Decode w.foldRune v RawEvent.zero with
    | error err => simp [hd] at h
    | ok event =>
      simp only [hd] at h ⊢
      cases he : (emitRow w n event).2 with
      | some err => simp [he] at h
      | none =>
        simp only [he] at h ⊢
        have h1 := ih _ h
        have h2 := emitRow_rows w n event he
        refine ⟨?_, ?_⟩
        · rw [rowsOf_append, h1.1, h2]
          simp [shardRows, rowsOfDoc, hd]
        · intro x hx
          rcases List.mem_cons.mp hx with rfl | hx
          · exact ⟨event, hd⟩
          · exact h1.2 x hx

theorem recordLoop_stream (w : World) (docs : List JSONDoc) (ending : Option String) :
    ∀ n : Nat,
      streamActions (recordLoop w n docs ending).1 =
        (rowsOf (recordLoop w n docs ending).1).map Effect.writeRow ∧
      requestsOf (recordLoop w n docs ending).1 = [] := by
  induction docs with
  | nil => intro n; simp [recordLoop, rowsOf, streamActions, requestsOf]
  | cons v rest ih =>
    intro n
    unfold recordLoop
    cases hd : Decode w.foldRune v RawEvent.zero with
    | error err => simp [rowsOf, streamActions, requestsOf]
    | ok event =>
      simp only []
      have h2 := emitRow_stream w n event
      cases he : (emitRow w n event).2 with
      | some err => simpa using h2
      | none =>
        simp only []
        have h1 := ih (n + (rowsOf (emitRow w n event).1).length)
        simp [streamActions_append, rowsOf_append, requestsOf_append, h1.1, h1.2, h2.1, h2.2]

/-! ## The loops over entries and days -/

theorem fileLoop_rows (w : World) (fs : List ZipFile) :
    ∀ n : Nat, (fileLoop w n fs).2 = none →
      rowsOf (fileLoop w n fs).1 = archiveRows w fs ∧ allDecode w fs := by
  induction fs with
  | nil => intro n _; simp [fileLoop, rowsOf, archiveRows, allDecode]
  | cons f rest ih =>
    intro n h
    unfold fileLoop at h ⊢
    cases ho : f.openErr with
    | some err => simp [ho] at h
    | none =>
      simp only [ho] at h ⊢
      cases hg : f.gzipErr with
      | some err => simp [hg] at h
      | none =>
        simp only [hg] at h ⊢
        cases hr : (recordLoop w n f.docs f.ending).2 with
        | some err => simp [hr] at h
        | none =>
          simp only [hr] at h ⊢
          have h1 := ih _ h
          have h2 := recordLoop_rows w f.docs f.ending n hr
          refine ⟨?_, ?_⟩
          · rw [List.cons_append, rowsOf, rowsOf_append, h1.1, h2.1]
            · rfl
            · intro row hrow; cases hrow
          · intro g hg2
            rcases List.mem_cons.mp hg2 with rfl | hg2
            · exact h2.2
            · exact h1.2 g hg2

theorem fileLoop_stream (w : World) (fs : List ZipFile) :
    ∀ n : Nat,
      streamActions (fileLoop w n fs).1 = (rowsOf (fileLoop w n fs).1).map Effect.writeRow ∧
      requestsOf (fileLoop w n fs).1 = [] := by
  induction fs with
  | nil => intro n; simp [fileLoop, rowsOf, streamActions, requestsOf]
  | cons f rest ih =>
    intro n
    unfold fileLoop
    cases ho : f.openErr with
    | some err => simp [rowsOf, streamActions, requestsOf]
    | none =>
      simp only []
      cases hg : f.gzipErr with
      | some err => simp [rowsOf, streamActions, requestsOf]
      | none =>
        simp only []
        have h2 := recordLoop_stream w f.docs f.ending n
        cases hr : (recordLoop w n f.docs f.ending).2 with
        | some err => simp [rowsOf, streamActions, requestsOf, h2.1, h2.2]
        | none =>
          simp only []
          have h1 := ih (n + (rowsOf (recordLoop w n f.docs f.ending).1).length)
          simp [rowsOf, streamActions, requestsOf, streamActions_append, rowsOf_append,
            requestsOf_append, h1.1, h1.2, h2.1, h2.2]

theorem dayBody_rows (w : World) (n : Nat) (current : Int) (h : (dayBody w n current).2 = none) :
    rowsOf (dayBody w n current).1 = archiveRows w (archiveOf w current) ∧
    allDecode w (archiveOf w current) := by
  unfold dayBody at h ⊢
  unfold archiveOf
  simp only [] at h ⊢
  cases h1 : getenv w "AMPLITUDE_API_KEY" with
  | error err => simp [h1] at h
  | ok k1 =>
    simp only [h1] at h ⊢
    cases h2 : getenv w "AMPLITUDE_SECRET_KEY" with
    | error err => simp [h2] at h
    | ok k2 =>
      simp only [h2] at h ⊢
      cases h3 : w.httpDo (dateOf w.utcOffset current) with
      | error err => simp [h3] at h
      | ok resp =>
        simp only [h3] at h ⊢
        by_cases h4 : resp.StatusCode ≠ 200
        · simp [h4] at h
        · simp only [h4, if_false] at h ⊢
          cases h5 : resp.body with
          | error err => simp [h5] at h
          | ok data =>
            simp only [h5] at h ⊢
            cases h6 : zipNewReader w data resp.ContentLength with
            | error err => simp [h6] at h
            | ok files =>
              simp only [h6] at h ⊢
              have h7 := fileLoop_rows w files n h
              refine ⟨?_, h7.2⟩
              rw [rowsOf_append, h7.1]
              simp [rowsOf]

theorem dayBody_stream (w : World) (n : Nat) (current : Int) :
    streamActions (dayBody w n current).1 = (rowsOf (dayBody w n current).1).map Effect.writeRow := by
  unfold dayBody
  simp only []
  cases h1 : getenv w "AMPLITUDE_API_KEY" with
  | error err => simp [rowsOf, streamActions]
  | ok k1 =>
    simp only []
    cases h2 : getenv w "AMPLITUDE_SECRET_KEY" with
    | error err => simp [rowsOf, streamActions]
    | ok k2 =>
      simp only []
      cases h3 : w.httpDo (dateOf w.utcOffset current) with
      | error err => simp [rowsOf, streamActions]
      | ok resp =>
        simp only []
        by_cases h4 : resp.StatusCode ≠ 200
        · simp [h4, rowsOf, streamActions]
        · simp only [h4, if_false]
          cases h5 : resp.body with
          | error err => simp [rowsOf, streamActions]
          | ok data =>
            simp only []
            cases h6 : zipNewReader w data resp.ContentLength with
            | error err => simp [rowsOf, streamActions]
            | ok files =>
              simp [rowsOf, streamActions, streamActions_append, rowsOf_append,
                (fileLoop_stream w files n).1]

theorem dayBody_requests (w : World) (n : Nat) (current : Int)
    (h : (dayBody w n current).2 = none) :
    requestsOf (dayBody w n current).1 = [dateOf w.utcOffset current] := by
  unfold dayBody at h ⊢
  simp only [] at h ⊢
  cases h1 : getenv w "AMPLITUDE_API_KEY" with
  | error err => simp [h1] at h
  | ok k1 =>
    simp only [h1] at h ⊢
    cases h2 : getenv w "AMPLITUDE_SECRET_KEY" with
    | error err => simp [h2] at h
    | ok k2 =>
      simp only [h2] at h ⊢
      cases h3 : w.httpDo (dateOf w.utcOffset current) with
      | error err => simp [h3] at h
      | ok resp =>
        simp only [h3] at h ⊢
        by_cases h4 : resp.StatusCode ≠ 200
        · simp [h4] at h
        · simp only [h4, if_false] at h ⊢
          cases h5 : resp.body with
          | error err => simp [h5] at h
          | ok data =>
            simp only [h5] at h ⊢
            cases h6 : zipNewReader w data resp.ContentLength with
            | error err => simp [h6] at h
            | ok files =>
              simp [requestsOf, requestsOf_append, (fileLoop_stream w files n).2]

theorem daysLoop_rows (w : World) (l : List Int) :
    ∀ n : Nat, (daysLoop w n l).2 = none →
      rowsOf (daysLoop w n l).1 = daysRows w l ∧
      (∀ current ∈ l, allDecode w (archiveOf w current)) ∧
      requestsOf (daysLoop w n l).1 = l.map (dateOf w.utcOffset) := by
  induction l with
  | nil => intro n _; simp [daysLoop, rowsOf, daysRows, requestsOf]
  | cons current rest ih =>
    intro n h
    unfold daysLoop at h ⊢
    simp only [] at h ⊢
    cases hb : (dayBody w n current).2 with
    | some err => simp [hb] at h
    | none =>
      simp only [hb] at h ⊢
      have h1 := ih _ h
      have h2 := dayBody_rows w n current hb
      have h3 := dayBody_requests w n current hb
      refine ⟨?_, ?_, ?_⟩
      · rw [rowsOf_append, h1.1, h2.1]; rfl
      · intro c hc
        rcases List.mem_cons.mp hc with rfl | hc
        · exact h2.2
        · exact h1.2.1 c hc
      · rw [requestsOf_append, h1.2.2, h3]; rfl

theorem daysLoop_stream (w : World) (l : List Int) :
    ∀ n : Nat,
      streamActions (daysLoop w n l).1 = (rowsOf (daysLoop w n l).1).map Effect.writeRow := by
  induction l with
  | nil => intro n; simp [daysLoop, rowsOf, streamActions]
  | cons current rest ih =>
    intro n
    unfold daysLoop
    simp only []
    have h2 := dayBody_stream w n current
    cases hb : (dayBody w n current).2 with
    | some err => simpa using h2
    | none =>
      simp only []
      simp [streamActions_append, rowsOf_append, h2, ih]

/-! ## The day loop's iteration values -/

theorem day_pos : 0 < day := by decide

theorem visitedFuel_indep : ∀ (f g : Nat) (s e : Int),
    (e < s ∨ (e - s).toNat < f) → (e < s ∨ (e - s).toNat < g) →
    visitedFuel f s e = visitedFuel g s e := by
  intro f
  induction f with
  | zero =>
    intro g s e hf _
    have hlt : e < s := by omega
    cases g with
    | zero => rfl
    | succ m => simp [visitedFuel, not_le.mpr hlt]
  | succ n ih =>
    intro g s e hf hg
    cases g with
    | zero =>
      have hlt : e < s := by omega
      simp [visitedFuel, not_le.mpr hlt]
    | succ m =>
      simp only [visitedFuel]
      by_cases hle : s ≤ e
      · simp only [hle, if_true]
        congr 1
        have hd := day_pos
        apply ih
        · omega
        · omega
      · simp [hle]

theorem visitedFuel_succ (f : Nat) (s e : Int) :
    visitedFuel (f + 1) s e = if s ≤ e then s :: visitedFuel f (s + day) e else [] := rfl

/-- The loop's own unfolding: test `!current.After(stop)`, run the body, add a day. -/
theorem visited_eq (s e : Int) :
    visited s e = if s ≤ e then s :: visited (s + day) e else [] := by
  rw [visited, visitedFuel_succ]
  by_cases hle : s ≤ e
  · simp only [hle, if_true]
    congr 1
    have hd := day_pos
    rw [visited]
    apply visitedFuel_indep
    · omega
    · omega
  · simp [hle]

theorem visited_of_lt (s e : Int) (h : e < s) : visited s e = [] := by
  rw [visited_eq]; simp [not_le.mpr h]

/-- The loop runs `k + 1` times when `stop` lies in the day that starts at `start + k` days. -/
theorem visited_closed : ∀ (k : Nat) (s e : Int),
    s + (k : Int) * day ≤ e → e < s + ((k : Int) + 1) * day →
    visited s e = (List.range (k + 1)).map (fun i : Nat => s + (i : Int) * day) := by
  intro k
  induction k with
  | zero =>
    intro s e h1 h2
    simp at h1 h2
    rw [visited_eq, visited_of_lt _ _ h2]
    simp [h1, List.range_succ]
  | succ n ih =>
    intro s e h1 h2
    have hd := day_pos
    have hle : s ≤ e := by
      have : (0 : Int) ≤ ((n + 1 : Nat) : Int) * day := by positivity
      omega
    rw [visited_eq]
    simp only [hle, if_true]
    rw [ih (s + day) e (by push_cast at h1 ⊢; linarith) (by push_cast at h1 h2 ⊢; linarith)]
    rw [List.range_succ_eq_map (n + 1)]
    simp only [List.map_cons, List.map_map]
    congr 1
    · simp
    · apply List.map_congr_left
      intro i _
      simp only [Function.comp]
      push_cast
      ring

theorem visited_length (s e : Int) (h : s ≤ e) :
    ((visited s e).length : Int) = (e - s) / day + 1 := by
  have hd := day_pos
  have hq : 0 ≤ (e - s) / day := Int.ediv_nonneg (by omega) (le_of_lt hd)
  obtain ⟨k, hk⟩ := Int.eq_ofNat_of_zero_le hq
  have hm := Int.emod_add_ediv (e - s) day
  have hm1 := Int.emod_nonneg (e - s) (ne_of_gt hd)
  have hm2 := Int.emod_lt_of_pos (e - s) hd
  rw [visited_closed k s e (by rw [← hk]; linarith) (by rw [← hk]; linarith)]
  simp [hk]

/-! ## The producer and `main` -/

theorem producer_ok (w : World) (s e : Int) (h : (producer w s e).2 = none) :
    (daysLoop w 0 (visited s e)).2 = none ∧
    (producer w s e).1 = (daysLoop w 0 (visited s e)).1 ++ [Effect.flush, Effect.closePipe] := by
  unfold producer at h ⊢
  simp only [] at h ⊢
  cases hd : (daysLoop w 0 (visited s e)).2 with
  | some err => simp [hd] at h
  | none => simp

theorem main_ok (w : World) (h : (main w).2 = none) :
    ∃ days, daysSetting w = .ok days ∧
      (producer w (startOf w days) w.now2).2 = none ∧
      (main w).1 = [Effect.logDeleting, Effect.deleteTable, Effect.logCreating,
        Effect.createTable] ++ (producer w (startOf w days) w.now2).1 := by
  unfold main at h ⊢
  cases h1 : getenv w "BIGQUERY_PROJECT" with
  | error err => simp [h1] at h
  | ok project =>
    simp only [h1] at h ⊢
    cases h2 : w.newClientErr project with
    | some err => simp [h2] at h
    | none =>
      simp only [h2] at h ⊢
      cases h3 : getenv w "BIGQUERY_DATASET" with
      | error err => simp [h3] at h
      | ok dataset =>
        simp only [h3] at h ⊢
        cases h4 : getenv w "BIGQUERY_TABLE" with
        | error err => simp [h4] at h
        | ok table =>
          simp only [h4] at h ⊢
          cases h5 : daysSetting w with
          | error err => simp [h5] at h
          | ok days =>
            simp only [h5] at h ⊢
            cases h6 : w.createErr with
            | some err => simp [h6] at h
            | none =>
              simp only [h6] at h ⊢
              exact ⟨days, rfl, h, rfl⟩

theorem shardRows_length (w : World) (docs : List JSONDoc)
    (h : ∀ v ∈ docs, ∃ event, Decode w.foldRune v RawEvent.zero = .ok event) :
    (shardRows w docs).length + (docs.filter (emptyUserID w.foldRune)).length = docs.length := by
  induction docs with
  | nil => simp [shardRows]
  | cons v rest ih =>
    have ih1 := ih (fun x hx => h x (List.mem_cons_of_mem _ hx))
    obtain ⟨event, hev⟩ := h v (List.mem_cons_self _ _)
    by_cases hu : event.UserID = ""
    · simp [shardRows, rowsOfDoc, emptyUserID, hev, hu, List.filter_cons]
      omega
    · simp [shardRows, rowsOfDoc, emptyUserID, hev, hu, List.filter_cons]
      omega

theorem daysRows_length (w : World) (l : List Int)
    (h : ∀ current ∈ l, (archiveRows w (archiveOf w current)).length = 2) :
    (daysRows w l).length = 2 * l.length := by
  induction l with
  | nil => simp [daysRows]
  | cons c rest ih =>
    have h1 := h c (List.mem_cons_self _ _)
    have h2 := ih (fun x hx => h x (List.mem_cons_of_mem _ hx))
    simp [daysRows, h1, h2]
    omega

theorem sampleWorld_scenario :
    twoDayScenario sampleWorld (startOf sampleWorld 1) sampleWorld.now2 :=
  ⟨by decide, fun _ _ =>
    ⟨⟨"shard_0.json.gz", none, none, sampleDocs, none⟩, rfl, by decide, by decide⟩⟩

/-! ## Projection, rows written and stream actions -/

/-- C1: for every decoded record `r`, the statements after the decode write no row
when `r.UserID` is empty, and otherwise (the write not failing) write exactly one
row, the list of `EventTime`, `EventType`, `UserID`, the text of `EventProperties`
and the text of `UserProperties`, in that order and unchanged; and these are the
rows of the decode loop over a shard of one value that decodes to `r`. -/
theorem projection_step (w : World) (n : Nat) (r : RawEvent) (hw : w.pipeWrite n = none) :
    emitRow w n r =
      (if r.UserID = "" then ([], none)
      else ([Effect.writeRow
        [r.EventTime, r.EventType, r.UserID, r.EventProperties, r.UserProperties]], none)) ∧
    ∀ v : JSONDoc, Decode w.foldRune v RawEvent.zero = .ok r →
      rowsOf (recordLoop w n [v] none).1 =
        if r.UserID = "" then []
        else [[r.EventTime, r.EventType, r.UserID, r.EventProperties, r.UserProperties]] := by
  have hemit : emitRow w n r =
      (if r.UserID = "" then ([], none)
      else ([Effect.writeRow
        [r.EventTime, r.EventType, r.UserID, r.EventProperties, r.UserProperties]], none)) := by
    unfold emitRow
    by_cases hu : r.UserID = ""
    · simp [hu]
    · simp [hu, hw, projectRow]
  refine ⟨hemit, ?_⟩
  intro v hd
  unfold recordLoop
  rw [hd]
  simp only [hemit]
  by_cases hu : r.UserID = ""
  · simp [hu, recordLoop, rowsOf]
  · simp [hu, recordLoop, rowsOf]

theorem projection_step_witness :
    sampleWorld.pipeWrite 0 = none ∧
    emitRow sampleWorld 0 { RawEvent.zero with UserID := "u1", EventTime := "t1" } =
      ([Effect.writeRow ["t1", "", "u1", "", ""]], none) ∧
    emitRow sampleWorld 0 { RawEvent.zero with EventTime := "t1" } = ([], none) :=
  ⟨rfl,
    (projection_step sampleWorld 0 { RawEvent.zero with UserID := "u1", EventTime := "t1" } rfl).1,
    by decide⟩

/-- C2: in a run in which nothing fails, the rows written are exactly the rows of
the records with a non-empty `UserID`, by day, then by archive entry, then by
record, and in the scenario of two days, one shard a day and three records a shard
of which one has an empty `UserID`, four rows are written. -/
theorem run_rows (w : World) (h : (main w).2 = none) :
    ∃ days, daysSetting w = .ok days ∧
      rowsOf (main w).1 = expectedRows w (startOf w days) w.now2 ∧
      (twoDayScenario w (startOf w days) w.now2 → (rowsOf (main w).1).length = 4) := by
  obtain ⟨days, hdays, hp, htr⟩ := main_ok w h
  obtain ⟨hl, hpt⟩ := producer_ok w _ _ hp
  obtain ⟨hrows, hdec, _⟩ := daysLoop_rows w _ 0 hl
  have hmain : rowsOf (main w).1 = expectedRows w (startOf w days) w.now2 := by
    rw [htr, hpt, rowsOf_append, rowsOf_append, hrows]
    simp [rowsOf, expectedRows]
  refine ⟨days, hdays, hmain, ?_⟩
  intro hsc
  rw [hmain, expectedRows, daysRows_length, hsc.1]
  intro current hc
  obtain ⟨f, hf, hlen, hcount⟩ := hsc.2 current hc
  have hd := hdec current hc
  rw [hf] at hd
  have hs := shardRows_length w f.docs (hd f (List.mem_cons_self _ _))
  rw [hf]
  simp only [archiveRows, List.append_nil]
  omega

theorem run_rows_witness :
    (main sampleWorld).2 = none ∧ (rowsOf (main sampleWorld).1).length = 4 ∧
    twoDayScenario sampleWorld (startOf sampleWorld 1) sampleWorld.now2 ∧
    ∃ days, daysSetting sampleWorld = .ok days ∧
      rowsOf (main sampleWorld).1 = expectedRows sampleWorld (startOf sampleWorld days)
        sampleWorld.now2 ∧
      (twoDayScenario sampleWorld (startOf sampleWorld days) sampleWorld.now2 →
        (rowsOf (main sampleWorld).1).length = 4) :=
  ⟨by decide, by decide, sampleWorld_scenario, run_rows sampleWorld (by decide)⟩

/-- C9: in a run in which nothing fails, the actions on the output stream are the
row writes, then one flush of the encoder, then one close of the write end of the
pipe, and nothing else. -/
theorem stream_actions (w : World) (h : (main w).2 = none) :
    streamActions (main w).1 =
      (rowsOf (main w).1).map Effect.writeRow ++ [Effect.flush, Effect.closePipe] := by
  obtain ⟨days, _, hp, htr⟩ := main_ok w h
  obtain ⟨_, hpt⟩ := producer_ok w _ _ hp
  rw [htr, hpt]
  simp [streamActions_append, rowsOf_append, streamActions, rowsOf, daysLoop_stream]

theorem stream_actions_witness :
    (main sampleWorld).2 = none ∧
    streamActions (main sampleWorld).1 =
      (rowsOf (main sampleWorld).1).map Effect.writeRow ++ [Effect.flush, Effect.closePipe] :=
  ⟨by decide, stream_actions sampleWorld (by decide)⟩

/-! ## The day range -/

theorem startOffset_eq (N : Nat) (hN : N ≤ 106751) : startOffset (N : Int) = -((N : Int) * day) := by
  unfold startOffset wrapInt64 day hour
  omega

theorem dateOf_add_days (off : Int) (t : Int) (k : Int) :
    dateOf (fun _ => off) (t + k * day) = dateOf (fun _ => off) t + k := by
  unfold dateOf
  have hd : day ≠ 0 := ne_of_gt day_pos
  rw [show t + k * day + off = t + off + k * day by ring]
  exact Int.add_mul_ediv_right _ _ hd

theorem main_requests (w : World) (h : (main w).2 = none) :
    ∃ days, daysSetting w = .ok days ∧
      requestsOf (main w).1 = (visited (startOf w days) w.now2).map (dateOf w.utcOffset) := by
  obtain ⟨days, hdays, hp, htr⟩ := main_ok w h
  obtain ⟨hl, hpt⟩ := producer_ok w _ _ hp
  obtain ⟨_, _, hreq⟩ := daysLoop_rows w _ 0 hl
  refine ⟨days, hdays, ?_⟩
  rw [htr, hpt, requestsOf_append, requestsOf_append, hreq]
  simp [requestsOf]

/-- C5, as corrected: for every range with `start` not after `stop` the day loop
runs `(stop - start) / 24h + 1` times (quotient rounded down); with a constant
offset from UTC that is the number of calendar days from the day of `start` through
the day of `stop` when the time of day of `stop` is not earlier than that of
`start`, and one less when it is earlier. -/
theorem dayLoop_count (off start stop : Int) (h : start ≤ stop) :
    ((visited start stop).length : Int) = (stop - start) / day + 1 ∧
    ((visited start stop).length : Int) =
      (dateOf (fun _ => off) stop - dateOf (fun _ => off) start + 1) -
        (if (stop + off) % day < (start + off) % day then 1 else 0) := by
  have hlen := visited_length start stop h
  refine ⟨hlen, ?_⟩
  rw [hlen]
  unfold dateOf day hour
  beta_reduce
  split <;> omega

theorem dayLoop_count_witness :
    (1700000000000000000 : Int) ≤ 1700000000000000000 + 3 * day ∧
    ((visited 1700000000000000000 (1700000000000000000 + 3 * day)).length : Int) =
      (1700000000000000000 + 3 * day - 1700000000000000000) / day + 1 ∧
    ((visited 1700000000000000000 (1700000000000000000 + 3 * day)).length : Int) =
      (dateOf (fun _ => 0) (1700000000000000000 + 3 * day) -
          dateOf (fun _ => 0) 1700000000000000000 + 1) -
        (if (1700000000000000000 + 3 * day + 0) % day < (1700000000000000000 + 0) % day
          then 1 else 0) :=
  ⟨by decide, dayLoop_count 0 1700000000000000000 (1700000000000000000 + 3 * day) (by decide)⟩

/-- C5 as stated fails: with `DAYS` 0 and the clock read at 23:59:59.999999999 and
then at 00:00:00.000000001 UTC, `start` is not after `stop`, the loop runs once, and
the days from the day of `start` through the day of `stop` are two. -/
theorem dayLoop_count_counterexample :
    daysSetting midnightWorld = .ok 0 ∧
    startOf midnightWorld 0 ≤ midnightWorld.now2 ∧
    (visited (startOf midnightWorld 0) midnightWorld.now2).length = 1 ∧
    dateOf midnightWorld.utcOffset midnightWorld.now2 -
      dateOf midnightWorld.utcOffset (startOf midnightWorld 0) + 1 = 2 := by
  decide

/-- C6, as corrected: for a day count `N` up to 106751, a constant offset from UTC,
and two clock readings of which the second (`stop`) is not earlier than the first
(the one `start` is computed from) and falls on the same calendar date, the loop
visits `start`, `start + 24h`, up to `start + N * 24h`; the dates of these are the
date of `start` plus 0, 1, up to `N`, the last being the date of `stop`; and a run
in which nothing fails requests exactly these dates, in this order. -/
theorem dayLoop_dates (w : World) (N : Nat) (off : Int) (hN : N ≤ 106751)
    (hoff : ∀ t, w.utcOffset t = off) (hnow : w.now1 ≤ w.now2)
    (hdate : dateOf w.utcOffset w.now2 = dateOf w.utcOffset w.now1) :
    visited (startOf w N) w.now2 =
      (List.range (N + 1)).map (fun k : Nat => startOf w N + (k : Int) * day) ∧
    (visited (startOf w N) w.now2).map (dateOf w.utcOffset) =
      (List.range (N + 1)).map (fun k : Nat => dateOf w.utcOffset (startOf w N) + (k : Int)) ∧
    dateOf w.utcOffset (startOf w N) + (N : Int) = dateOf w.utcOffset w.now2 ∧
    ((main w).2 = none → daysSetting w = .ok (N : Int) →
      requestsOf (main w).1 =
        (List.range (N + 1)).map (fun k : Nat => dateOf w.utcOffset (startOf w N) + (k : Int))) := by
  have hfun : w.utcOffset = fun _ => off := funext hoff
  have hstart : startOf w N = w.now1 - (N : Int) * day := by
    unfold startOf; rw [startOffset_eq N hN]; ring
  have hlt : w.now2 < w.now1 + day := by
    rw [hfun] at hdate
    unfold dateOf day hour at hdate
    beta_reduce at hdate
    unfold day hour
    omega
  have hvis : visited (startOf w N) w.now2 =
      (List.range (N + 1)).map (fun k : Nat => startOf w N + (k : Int) * day) := by
    apply visited_closed
    · rw [hstart]; linarith
    · rw [hstart]; linarith
  have hdates : (visited (startOf w N) w.now2).map (dateOf w.utcOffset) =
      (List.range (N + 1)).map
        (fun k : Nat => dateOf w.utcOffset (startOf w N) + (k : Int)) := by
    rw [hvis, List.map_map]
    apply List.map_congr_left
    intro k _
    simp only [Function.comp, hfun]
    exact dateOf_add_days off _ _
  refine ⟨hvis, hdates, ?_, ?_⟩
  · rw [hdate, hfun, ← dateOf_add_days, hstart]
    congr 1
    ring
  · intro hrun hdays
    obtain ⟨days, hd1, hreq⟩ := main_requests w hrun
    rw [hdays] at hd1
    cases hd1
    rw [hreq, hdates]

theorem dayLoop_dates_witness :
    (1 : Nat) ≤ 106751 ∧ (∀ t, sampleWorld.utcOffset t = 0) ∧
    sampleWorld.now1 ≤ sampleWorld.now2 ∧
    dateOf sampleWorld.utcOffset sampleWorld.now2 =
      dateOf sampleWorld.utcOffset sampleWorld.now1 ∧
    (main sampleWorld).2 = none ∧ daysSetting sampleWorld = .ok ((1 : Nat) : Int) ∧
    requestsOf (main sampleWorld).1 = [19674, 19675] ∧
    (visited (startOf sampleWorld (1 : Nat)) sampleWorld.now2 =
      (List.range (1 + 1)).map (fun k : Nat => startOf sampleWorld (1 : Nat) + (k : Int) * day) ∧
    (visited (startOf sampleWorld (1 : Nat)) sampleWorld.now2).map (dateOf sampleWorld.utcOffset) =
      (List.range (1 + 1)).map
        (fun k : Nat => dateOf sampleWorld.utcOffset (startOf sampleWorld (1 : Nat)) + (k : Int)) ∧
    dateOf sampleWorld.utcOffset (startOf sampleWorld (1 : Nat)) + ((1 : Nat) : Int) =
      dateOf sampleWorld.utcOffset sampleWorld.now2 ∧
    ((main sampleWorld).2 = none → daysSetting sampleWorld = .ok ((1 : Nat) : Int) →
      requestsOf (main sampleWorld).1 =
        (List.range (1 + 1)).map
          (fun k : Nat => dateOf sampleWorld.utcOffset (startOf sampleWorld (1 : Nat)) + (k : Int)))) :=
  ⟨by decide, fun _ => rfl, by decide, by decide, by decide, by decide, by decide,
    dayLoop_dates sampleWorld 1 0 (by decide) (fun _ => rfl) (by decide) (by decide)⟩

/-- C6 as stated fails: with `DAYS` 106752 the product of the day count and 24
hours wraps around in 64 bits, `start` lies after `stop`, the loop body never runs
and no date is requested, the date of `stop` included. -/
theorem dayLoop_dates_counterexample :
    daysSetting overflowWorld = .ok 106752 ∧
    overflowWorld.now2 < startOf overflowWorld 106752 ∧
    visited (startOf overflowWorld 106752) overflowWorld.now2 = [] ∧
    (main overflowWorld).2 = none ∧
    requestsOf (main overflowWorld).1 = [] := by
  decide

/-! ## Decoding one object -/

theorem decodeObject_unknown (foldRune : Char → Char) (ms : List Member) :
    ∀ e : RawEvent, (∃ m ∈ ms, findField foldRune m.key = none) →
      ∃ err, decodeObject foldRune ms e = .error err := by
  induction ms with
  | nil => intro e h; obtain ⟨m, hm, _⟩ := h; cases hm
  | cons m rest ih =>
    intro e h
    unfold decodeObject
    cases hf : findField foldRune m.key with
    | none => exact ⟨_, rfl⟩
    | some f =>
      simp only []
      cases ha : assign f m.kind m.raw e with
      | error err => exact ⟨err, rfl⟩
      | ok e1 =>
        simp only []
        apply ih
        obtain ⟨x, hx, hnone⟩ := h
        rcases List.mem_cons.mp hx with rfl | hx
        · rw [hf] at hnone; cases hnone
        · exact ⟨x, hx, hnone⟩

theorem storeString_ok (v : JSONKind) (set : String → RawEvent) (e e1 : RawEvent)
    (h : storeString v set e = .ok e1) : e1 = e ∨ ∃ s, e1 = set s := by
  cases v <;> simp [storeString] at h
  · exact Or.inl h.symm
  · exact Or.inr ⟨_, h.symm⟩

theorem storeInt_ok (v : JSONKind) (set : Int → RawEvent) (e e1 : RawEvent)
    (h : storeInt v set e = .ok e1) : e1 = e ∨ ∃ s, e1 = set s := by
  cases v <;> simp [storeInt] at h
  · exact Or.inl h.symm
  · split at h
    · cases h; exact Or.inr ⟨_, rfl⟩
    · cases h

theorem storeBool_ok (v : JSONKind) (set : Bool → RawEvent) (e e1 : RawEvent)
    (h : storeBool v set e = .ok e1) : e1 = e ∨ ∃ s, e1 = set s := by
  cases v <;> simp [storeBool] at h
  · exact Or.inl h.symm
  · exact Or.inr ⟨_, h.symm⟩

theorem storeRaw_ok (raw : String) (set : RawMessage → RawEvent) (e e1 : RawEvent)
    (h : storeRaw raw set = .ok e1) : e1 = e ∨ ∃ s, e1 = set s := by
  simp [storeRaw] at h
  exact Or.inr ⟨_, h.symm⟩

/-- A store into one field leaves the five projected fields alone, the stored one apart. -/
theorem assign_other (f : Field) (k : JSONKind) (raw : String) (e e1 : RawEvent)
    (h : assign f k raw e = .ok e1) :
    (f ≠ .EventTime → e1.EventTime = e.EventTime) ∧
    (f ≠ .EventType → e1.EventType = e.EventType) ∧
    (f ≠ .UserID → e1.UserID = e.UserID) ∧
    (f ≠ .EventProperties → e1.EventProperties = e.EventProperties) ∧
    (f ≠ .UserProperties → e1.UserProperties = e.UserProperties) := by
  cases f <;> simp only [assign] at h <;>
    first
    | (rcases storeString_ok _ _ _ _ h with rfl | ⟨s, rfl⟩ <;> simp)
    | (rcases storeInt_ok _ _ _ _ h with rfl | ⟨s, rfl⟩ <;> simp)
    | (rcases storeBool_ok _ _ _ _ h with rfl | ⟨s, rfl⟩ <;> simp)
    | (rcases storeRaw_ok _ _ e _ h with rfl | ⟨s, rfl⟩ <;> simp)

theorem decodeObject_other (foldRune : Char → Char) (ms : List Member) :
    ∀ e e1 : RawEvent, decodeObject foldRune ms e = .ok e1 →
      ((∀ m ∈ ms, findField foldRune m.key ≠ some .EventTime) → e1.EventTime = e.EventTime) ∧
      ((∀ m ∈ ms, findField foldRune m.key ≠ some .EventType) → e1.EventType = e.EventType) ∧
      ((∀ m ∈ ms, findField foldRune m.key ≠ some .UserID) → e1.UserID = e.UserID) ∧
      ((∀ m ∈ ms, findField foldRune m.key ≠ some .EventProperties) →
        e1.EventProperties = e.EventProperties) ∧
      ((∀ m ∈ ms, findField foldRune m.key ≠ some .UserProperties) →
        e1.UserProperties = e.UserProperties) := by
  induction ms with
  | nil =>
    intro e e1 h
    simp only [decodeObject] at h
    cases h
    simp
  | cons m rest ih =>
    intro e e1 h
    unfold decodeObject at h
    cases hf : findField foldRune m.key with
    | none => simp [hf] at h
    | some f =>
      simp only [hf] at h
      cases ha : assign f m.kind m.raw e with
      | error err => simp [ha] at h
      | ok e2 =>
        simp only [ha] at h
        have h1 := ih e2 e1 h
        have h2 := assign_other f m.kind m.raw e e2 ha
        have key : ∀ g : Field, (∀ x ∈ m :: rest, findField foldRune x.key ≠ some g) →
            f ≠ g ∧ ∀ x ∈ rest, findField foldRune x.key ≠ some g := by
          intro g hg
          refine ⟨?_, fun x hx => hg x (List.mem_cons_of_mem _ hx)⟩
          intro hfg
          exact hg m (List.mem_cons_self _ _) (by rw [hf, hfg])
        refine ⟨?_, ?_, ?_, ?_, ?_⟩
        · intro hg; obtain ⟨a, b⟩ := key _ hg; rw [h1.1 b, h2.1 a]
        · intro hg; obtain ⟨a, b⟩ := key _ hg; rw [h1.2.1 b, h2.2.1 a]
        · intro hg; obtain ⟨a, b⟩ := key _ hg; rw [h1.2.2.1 b, h2.2.2.1 a]
        · intro hg; obtain ⟨a, b⟩ := key _ hg; rw [h1.2.2.2.1 b, h2.2.2.2.1 a]
        · intro hg; obtain ⟨a, b⟩ := key _ hg; rw [h1.2.2.2.2 b, h2.2.2.2.2 a]

/-- C3, as corrected: an object one of whose keys selects no field of `RawEvent`,
neither by an exact match of a tag nor by a match after case folding, fails to
decode, the run ends there in `log.Fatal`, and no row is written for it, whatever
its other members are. -/
theorem unknown_field_fatal (w : World) (n : Nat) (members : List Member)
    (rest : List JSONDoc) (ending : Option String)
    (h : ∃ m ∈ members, findField w.foldRune m.key = none) :
    ∃ err, Decode w.foldRune (.object members) RawEvent.zero = .error err ∧
      recordLoop w n (.object members :: rest) ending = ([], some err) := by
  obtain ⟨err, herr⟩ := decodeObject_unknown w.foldRune members RawEvent.zero h
  refine ⟨err, herr, ?_⟩
  unfold recordLoop
  have hd : Decode w.foldRune (.object members) RawEvent.zero = .error err := herr
  rw [hd]

theorem unknown_field_fatal_witness :
    (∃ m ∈ [(⟨"user_id", .string "u1", "\"u1\""⟩ : Member), ⟨"plan", .string "pro", "\"pro\""⟩],
      findField sampleWorld.foldRune m.key = none) ∧
    ∃ err, Decode sampleWorld.foldRune
        (.object [⟨"user_id", .string "u1", "\"u1\""⟩, ⟨"plan", .string "pro", "\"pro\""⟩])
        RawEvent.zero = .error err ∧
      recordLoop sampleWorld 0
        (.object [⟨"user_id", .string "u1", "\"u1\""⟩, ⟨"plan", .string "pro", "\"pro\""⟩] ::
          sampleDocs) none = ([], some err) :=
  ⟨⟨⟨"plan", .string "pro", "\"pro\""⟩, by decide, by decide⟩,
    unknown_field_fatal sampleWorld 0 _ sampleDocs none
      ⟨⟨"plan", .string "pro", "\"pro\""⟩, by decide, by decide⟩⟩

/-- C3 as stated fails: the key `USER_ID` is none of the 49 tags, yet the object
decodes (the key selects `UserID` after case folding) and its row is written. -/
theorem unknown_field_counterexample :
    "USER_ID" ∉ allFields.map Field.tag ∧
    recordLoop sampleWorld 0
      [.object [⟨"USER_ID", .string "u1", "\"u1\""⟩, ⟨"event_type", .string "open", "\"open\""⟩]]
      none = ([Effect.writeRow ["", "open", "u1", "", ""]], none) := by
  decide

/-- C10: in a shard that is read without failure the rows written are, record by
record, the rows each record gives when it is decoded on its own from the zero
value; and in the record decoded from an object, a projected field that no member
of the object selects is the empty text. -/
theorem rows_independent (w : World) (n : Nat) (docs : List JSONDoc) (ending : Option String)
    (h : (recordLoop w n docs ending).2 = none) :
    rowsOf (recordLoop w n docs ending).1 = shardRows w docs ∧
    ∀ (members : List Member) (event : RawEvent),
      Decode w.foldRune (.object members) RawEvent.zero = .ok event →
      ((∀ m ∈ members, findField w.foldRune m.key ≠ some .EventTime) → event.EventTime = "") ∧
      ((∀ m ∈ members, findField w.foldRune m.key ≠ some .EventType) → event.EventType = "") ∧
      ((∀ m ∈ members, findField w.foldRune m.key ≠ some .EventProperties) →
        event.EventProperties = "") ∧
      ((∀ m ∈ members, findField w.foldRune m.key ≠ some .UserProperties) →
        event.UserProperties = "") := by
  refine ⟨(recordLoop_rows w docs ending n h).1, ?_⟩
  intro members event hd
  have h1 := decodeObject_other w.foldRune members RawEvent.zero event hd
  exact ⟨h1.1, h1.2.1, h1.2.2.2.1, h1.2.2.2.2⟩

theorem rows_independent_witness :
    (recordLoop sampleWorld 0 sampleDocs none).2 = none ∧
    rowsOf (recordLoop sampleWorld 0 sampleDocs none).1 =
      [["t1", "open", "u1", "\x7b\"a\":1\x7d", ""], ["", "close", "u2", "", ""]] ∧
    rowsOf (recordLoop sampleWorld 0 sampleDocs none).1 = shardRows sampleWorld sampleDocs :=
  ⟨by decide, by decide, (rows_independent sampleWorld 0 sampleDocs none (by decide)).1⟩

/-! ## Writing a record and reading it back -/

theorem parseCSV_quoted (cs : List Char) :
    ∀ (field : List Char) (record : List String) (records : List (List String))
      (tail : List Char),
      parseCSV .quoted field record records (Writer.writeQuoted cs ++ tail) =
        parseCSV .quoted (field ++ cs) record records tail := by
  induction cs with
  | nil => intro field record records tail; simp [Writer.writeQuoted]
  | cons c rest ih =>
    intro field record records tail
    by_cases hq : c = '"'
    · subst hq
      simp only [Writer.writeQuoted, if_true, List.cons_append]
      rw [parseCSV]
      simp only [if_true]
      rw [parseCSV]
      simp only [if_true]
      rw [ih]
      simp
    · have step : parseCSV .quoted field record records (c :: (Writer.writeQuoted rest ++ tail)) =
          parseCSV .quoted (field ++ [c]) record records (Writer.writeQuoted rest ++ tail) := by
        rw [parseCSV]; simp [hq]
      have hw : Writer.writeQuoted (c :: rest) = c :: Writer.writeQuoted rest := by
        simp only [Writer.writeQuoted, hq, if_false]
        split_ifs with h1 h2
        · rw [h1]
        · rw [h2]
        · rfl
      rw [hw, List.cons_append, step, ih]
      simp

theorem parseCSV_unquoted (cs : List Char) :
    ∀ (field : List Char) (record : List String) (records : List (List String))
      (tail : List Char), (∀ c ∈ cs, isSpecial c = false) →
      parseCSV .unquoted field record records (cs ++ tail) =
        parseCSV .unquoted (field ++ cs) record records tail := by
  induction cs with
  | nil => intro field record records tail _; simp
  | cons c rest ih =>
    intro field record records tail h
    have hc := h c (List.mem_cons_self _ _)
    simp only [isSpecial, decide_eq_false_iff_not, not_or] at hc
    obtain ⟨h1, h2, h3, h4⟩ := hc
    rw [List.cons_append, parseCSV]
    simp only [h1, h2, h3, h4, if_false]
    rw [ih _ _ _ _ (fun x hx => h x (List.mem_cons_of_mem _ hx))]
    simp

theorem parseCSV_field (st : ParseState) (hst : st = .recordStart ∨ st = .fieldStart)
    (field : String) (record : List String) (records : List (List String))
    (c : Char) (hc : c = ',' ∨ c = '\n') (tail : List Char) :
    parseCSV st [] record records (Writer.writeField field ++ c :: tail) =
      afterField field record records c tail := by
  have hcq : c ≠ '"' := by rcases hc with rfl | rfl <;> decide
  unfold Writer.writeField
  by_cases hn : Writer.fieldNeedsQuotes field = true
  · simp only [hn, if_true, List.cons_append, List.append_assoc]
    have h1 : parseCSV st [] record records
        ('"' :: (Writer.writeQuoted field.data ++ ('"' :: c :: tail))) =
        parseCSV .quoted [] record records
          (Writer.writeQuoted field.data ++ ('"' :: c :: tail)) := by
      rcases hst with rfl | rfl <;> (rw [parseCSV]; simp)
    have h2 : parseCSV .quoted ([] ++ field.data) record records ('"' :: c :: tail) =
        parseCSV .quoteSeen field.data record records (c :: tail) := by
      rw [parseCSV]; simp
    have h3 : parseCSV .quoteSeen field.data record records (c :: tail) =
        afterField field record records c tail := by
      rw [parseCSV]
      unfold afterField
      rcases hc with rfl | rfl <;> simp
    simp only [List.nil_append]
    rw [h1, parseCSV_quoted, h2, h3]
  · rw [if_neg hn]
    simp only [Bool.not_eq_true] at hn
    cases hdata : field.data with
    | nil =>
      have hf : field = "" := by
        cases field; simp_all
      subst hf
      simp only [List.nil_append]
      unfold afterField
      rcases hst with rfl | rfl <;> rcases hc with rfl | rfl <;> (rw [parseCSV]; simp)
    | cons d ds =>
      have hne : field ≠ "" := by
        intro hf; subst hf; simp at hdata
      have hsp : ∀ x ∈ d :: ds, isSpecial x = false := by
        intro x hx
        unfold Writer.fieldNeedsQuotes at hn
        simp only [hne, if_false] at hn
        by_cases hb : field = "\\."
        · simp [hb] at hn
        · simp only [hb, if_false] at hn
          by_cases ha : field.data.any isSpecial = true
          · simp [ha] at hn
          · simp only [Bool.not_eq_true] at ha
            rw [hdata] at ha
            rw [List.any_eq_false] at ha
            simpa using ha x hx
      have hd := hsp d (List.mem_cons_self _ _)
      simp only [isSpecial, decide_eq_false_iff_not, not_or] at hd
      obtain ⟨d1, d2, d3, d4⟩ := hd
      simp only [List.cons_append]
      have h1 : parseCSV st [] record records (d :: (ds ++ c :: tail)) =
          parseCSV .unquoted [d] record records (ds ++ c :: tail) := by
        rcases hst with rfl | rfl <;> (rw [parseCSV]; simp [d1, d2, d3, d4])
      have h3 : parseCSV .unquoted ([d] ++ ds) record records (c :: tail) =
          afterField field record records c tail := by
        have hmk : String.mk (d :: ds) = field := by
          rw [← hdata]
        rw [parseCSV]
        unfold afterField
        rcases hc with rfl | rfl <;> simp [hmk]
      rw [h1, parseCSV_unquoted ds _ _ _ _ (fun x hx => hsp x (List.mem_cons_of_mem _ hx)), h3]

theorem parseCSV_record (fields : List String) :
    ∀ (st : ParseState), (st = .recordStart ∨ st = .fieldStart) →
      ∀ (field : String) (record : List String) (records : List (List String)),
      parseCSV st [] record records (Writer.writeFields (field :: fields) ++ ['\n']) =
        some (records ++ [record ++ field :: fields]) := by
  induction fields with
  | nil =>
    intro st hst field record records
    simp only [Writer.writeFields]
    rw [parseCSV_field st hst field record records '\n' (Or.inr rfl) []]
    simp [afterField, parseCSV]
  | cons g rest ih =>
    intro st hst field record records
    simp only [Writer.writeFields, List.append_assoc, List.cons_append]
    rw [parseCSV_field st hst field record records ',' (Or.inl rfl)]
    simp only [afterField, if_true]
    rw [ih .fieldStart (Or.inr rfl) g (record ++ [field]) records]
    simp

/-- C4: for every five field values, comma, quote and line breaks among their
characters included, the text `enc.Write` produces for the row parses, under the
grammar of RFC 4180, to exactly one record, whose five fields are the five values. -/
theorem csv_roundtrip (a b c d e : String) :
    csvParse (Writer.Write [a, b, c, d, e]) = some [[a, b, c, d, e]] := by
  unfold csvParse Writer.Write
  simp only []
  rw [parseCSV_record [b, c, d, e] .recordStart (Or.inl rfl) a [] []]
  simp

/-! ## Two places where the program departs from its specification -/

/-- C7: the declared content length is the size handed to `zip.NewReader`, so it
decides extraction: with a declared length of -1 extraction fails whatever the
payload is, and the run that writes four rows with the length declared writes none
and ends in `log.Fatal` when the same payload is declared of unknown length. -/
theorem declared_length_decides_extraction :
    (∀ (w : World) (data : Bytes),
      zipNewReader w data (-1) = .error "zip: size cannot be negative") ∧
    (main sampleWorld).2 = none ∧ (rowsOf (main sampleWorld).1).length = 4 ∧
    (main chunkedWorld).2 = some "zip: size cannot be negative" ∧
    rowsOf (main chunkedWorld).1 = [] :=
  ⟨fun _ _ => rfl, by decide, by decide, by decide, by decide⟩

/-- C8: with `AMPLITUDE_API_KEY` unset the run ends in the fatal error of `getenv`
only inside the first iteration of the day loop, after the table has been deleted
and created; and when the day loop has no iteration the run does not end in that
error at all. -/
theorem missing_key_after_table_reset :
    main noKeyWorld =
      ([Effect.logDeleting, Effect.deleteTable, Effect.logCreating, Effect.createTable,
        Effect.logDownloading 19674], some "Error: AMPLITUDE_API_KEY not set.") ∧
    main noKeyNoDaysWorld =
      ([Effect.logDeleting, Effect.deleteTable, Effect.logCreating, Effect.createTable,
        Effect.flush, Effect.closePipe], none) := by
  decide

end AmplitudeToBigquery
